import Mathlib

/-!
# Verification of the YouTube-Vid-Chapters backend core (`src/main.py`)

This file shallowly embeds the popularity-driven cache refresh and lookup
subsystem of `src/main.py`:

* the `videos` table (`Video` model, SQLAlchemy) as a list of records;
* the Flask `SimpleCache` as an association list (TTL is time-based and not
  modelled; the embedding captures every mutation the code performs);
* the Python `json` module (`json.dumps` / `json.loads`), an external
  collaborator, as a canonical JSON printer and a matching parser over the
  character list of a string, together with a proved round-trip theorem;
* the request handlers `check_video_id` and `process_video` and the scheduled
  job `update_cache_with_top_videos` as state-passing functions.

Python truthiness (`if not video_id`, `if cached_result`) and the float
expression `int(total_videos * 0.3)` (modelled exactly as `3 * total / 10`
in natural-number arithmetic) are embedded explicitly.
-/

namespace VidChapters

/-- A JSON value, the model of the Python objects produced by
`json.loads` and consumed by `json.dumps` in `main.py` (numbers are
restricted to integers, which covers the chapter payloads of this app). -/
inductive Json where
  | null : Json
  | bool (b : Bool) : Json
  | num (n : Int) : Json
  | str (s : String) : Json
  | arr (elems : List Json) : Json
  | obj (fields : List (String × Json)) : Json

/-- Python truthiness of a JSON value (`bool(x)` for the corresponding
Python object): `None`, `False`, `0`, `""`, `[]`, `{}` are falsy. -/
def pyTruthy : Json → Bool
  | .null => false
  | .bool b => b
  | .num n => decide (n ≠ 0)
  | .str s => decide (s ≠ "")
  | .arr xs => !xs.isEmpty
  | .obj fs => !fs.isEmpty

/-! ## The JSON printer (model of `json.dumps`) -/

/-- Decimal digits of a natural number, most significant first. -/
def natDigits (n : Nat) : List Char :=
  if n < 10 then [Nat.digitChar n]
  else natDigits (n / 10) ++ [Nat.digitChar (n % 10)]
  termination_by n
  decreasing_by
    exact Nat.div_lt_self (by omega) (by omega)

/-- Print an integer in decimal, as `json.dumps` prints a Python `int`. -/
def printInt (i : Int) : List Char :=
  if i < 0 then '-' :: natDigits i.natAbs else natDigits i.natAbs

/-- Escape one character of a JSON string literal (quote and backslash). -/
def escapeChar (c : Char) : List Char :=
  if c = '"' ∨ c = '\\' then ['\\', c] else [c]

/-- Escape every character of a string body. -/
def escapeList : List Char → List Char
  | [] => []
  | c :: cs => escapeChar c ++ escapeList cs

/-- Print a JSON string literal including the surrounding quotes. -/
def printString (s : String) : List Char :=
  '"' :: escapeList s.data ++ ['"']

/-- The characters of the keyword `null`. -/
def nullChars : List Char := ['n', 'u', 'l', 'l']

/-- The characters of the keyword `true`. -/
def trueChars : List Char := ['t', 'r', 'u', 'e']

/-- The characters of the keyword `false`. -/
def falseChars : List Char := ['f', 'a', 'l', 's', 'e']

mutual

/-- Canonical printing of a JSON value, the model of `json.dumps` with its
default separators `", "` and `": "`. -/
def printJson : Json → List Char
  | .num i => printInt i
  | .str s => printString s
  | .bool b => if b then trueChars else falseChars
  | .null => nullChars
  | .arr xs => '[' :: printElems xs ++ [']']
  | .obj fs => '{' :: printFields fs ++ ['}']

/-- Print array elements separated by `", "`. -/
def printElems : List Json → List Char
  | [] => []
  | [x] => printJson x
  | x :: y :: xs => printJson x ++ ',' :: ' ' :: printElems (y :: xs)

/-- Print object fields, `"key": value` separated by `", "`. -/
def printFields : List (String × Json) → List Char
  | [] => []
  | [(k, v)] => printString k ++ ':' :: ' ' :: printJson v
  | (k, v) :: f :: fs =>
      printString k ++ ':' :: ' ' :: printJson v ++ ',' :: ' ' :: printFields (f :: fs)

end

/-! ## The JSON parser (model of `json.loads`) -/

/-- Read the body of a JSON string literal (the opening quote already
consumed), unescaping `\c` to `c`, until the closing quote. -/
def parseStringAux : List Char → List Char → Option (String × List Char)
  | [], _ => none
  | c :: rest, acc =>
    if c = '"' then some (String.mk acc.reverse, rest)
    else if c = '\\' then
      match rest with
      | [] => none
      | d :: rest' => parseStringAux rest' (d :: acc)
    else parseStringAux rest (c :: acc)

/-- Numeric value of a decimal digit character. -/
def digitVal (c : Char) : Nat := c.toNat - '0'.toNat

/-- Read a maximal run of decimal digits, accumulating their value. -/
def readDigits : List Char → Nat → Nat × List Char
  | [], acc => (acc, [])
  | c :: cs, acc =>
    if c.isDigit then readDigits cs (acc * 10 + digitVal c) else (acc, c :: cs)

/-- One dispatch step of the JSON value parser; `pe` and `pf` are the
continuations that parse element and field lists at the next fuel level. -/
def parseValueStep (pe : List Char → Option (List Json × List Char))
    (pf : List Char → Option (List (String × Json) × List Char)) :
    List Char → Option (Json × List Char)
  | [] => none
  | c :: cs =>
    if c = 'n' then
      match cs with
      | 'u' :: 'l' :: 'l' :: rest => some (.null, rest)
      | _ => none
    else if c = 't' then
      match cs with
      | 'r' :: 'u' :: 'e' :: rest => some (.bool true, rest)
      | _ => none
    else if c = 'f' then
      match cs with
      | 'a' :: 'l' :: 's' :: 'e' :: rest => some (.bool false, rest)
      | _ => none
    else if c = '"' then
      match parseStringAux cs [] with
      | some (s, rest) => some (.str s, rest)
      | none => none
    else if c = '-' then
      match cs with
      | d :: rest =>
        if d.isDigit then
          let (n, r) := readDigits rest (digitVal d)
          some (.num (-(n : Int)), r)
        else none
      | [] => none
    else if c = '[' then
      match cs with
      | ']' :: rest => some (.arr [], rest)
      | _ =>
        match pe cs with
        | some (xs, rest) => some (.arr xs, rest)
        | none => none
    else if c = '{' then
      match cs with
      | '}' :: rest => some (.obj [], rest)
      | _ =>
        match pf cs with
        | some (fs, rest) => some (.obj fs, rest)
        | none => none
    else if c.isDigit then
      let (n, r) := readDigits cs (digitVal c)
      some (.num (n : Int), r)
    else none

/-- One step of the element-list parser: parse a value with `pv`, then
either close on `']'` or continue past `", "` with `pe`. -/
def parseElemsStep (pv : List Char → Option (Json × List Char))
    (pe : List Char → Option (List Json × List Char))
    (cs : List Char) : Option (List Json × List Char) :=
  match pv cs with
  | none => none
  | some (j, rest) =>
    match rest with
    | ']' :: rest' => some ([j], rest')
    | ',' :: ' ' :: rest' =>
      match pe rest' with
      | some (js, r) => some (j :: js, r)
      | none => none
    | _ => none

/-- One step of the field-list parser: parse a `"key": value` pair, then
either close on `'}'` or continue past `", "` with `pf`. -/
def parseFieldsStep (pv : List Char → Option (Json × List Char))
    (pf : List Char → Option (List (String × Json) × List Char)) :
    List Char → Option (List (String × Json) × List Char)
  | '"' :: cs' =>
    match parseStringAux cs' [] with
    | none => none
    | some (k, rest) =>
      match rest with
      | ':' :: ' ' :: rest' =>
        match pv rest' with
        | none => none
        | some (v, rest'') =>
          match rest'' with
          | '}' :: r => some ([(k, v)], r)
          | ',' :: ' ' :: r =>
            match pf r with
            | some (fs, r') => some ((k, v) :: fs, r')
            | none => none
          | _ => none
      | _ => none
  | _ => none

mutual

/-- Fuel-indexed parser for one JSON value, accepting the canonical output
language of `printJson`; returns the value and the unconsumed input. -/
def parseValue : Nat → List Char → Option (Json × List Char)
  | 0, _ => none
  | fuel + 1, cs => parseValueStep (parseElems fuel) (parseFields fuel) cs

/-- Parse a nonempty `", "`-separated element list followed by `']'`. -/
def parseElems : Nat → List Char → Option (List Json × List Char)
  | 0, _ => none
  | fuel + 1, cs => parseElemsStep (parseValue fuel) (parseElems fuel) cs

/-- Parse a nonempty `", "`-separated field list followed by `'}'`. -/
def parseFields : Nat → List Char → Option (List (String × Json) × List Char)
  | 0, _ => none
  | fuel + 1, cs => parseFieldsStep (parseValue fuel) (parseFields fuel) cs

end

/-- Serialize a JSON value to a string: the model of `json.dumps`. -/
def json_dumps (j : Json) : String := String.mk (printJson j)

/-- Parse a string as JSON, rejecting trailing garbage: the model of
`json.loads` (returning `none` where Python raises `JSONDecodeError`). -/
def json_loads (s : String) : Option Json :=
  match parseValue (s.data.length + 1) s.data with
  | some (j, []) => some j
  | _ => none

/-! ## Round-trip: `json_loads (json_dumps j) = some j` -/

/-- The remaining input does not begin with a digit, so a preceding number
literal cannot absorb it. -/
def stopsNum : List Char → Bool
  | [] => true
  | c :: _ => !c.isDigit

mutual

/-- Structural size of a JSON value, a lower bound for the parser fuel. -/
def sizeJ : Json → Nat
  | .arr xs => sizeL xs + 1
  | .obj fs => sizeF fs + 1
  | _ => 1

/-- Structural size of an element list. -/
def sizeL : List Json → Nat
  | [] => 0
  | x :: xs => sizeJ x + sizeL xs + 1

/-- Structural size of a field list. -/
def sizeF : List (String × Json) → Nat
  | [] => 0
  | (_, v) :: fs => sizeJ v + sizeF fs + 1

end

theorem sizeJ_pos (j : Json) : 1 ≤ sizeJ j := by
  cases j <;> simp [sizeJ]

theorem sizeL_pos {xs : List Json} (h : xs ≠ []) : 1 ≤ sizeL xs := by
  cases xs with
  | nil => exact absurd rfl h
  | cons x xs => simp [sizeL]

theorem sizeF_pos {fs : List (String × Json)} (h : fs ≠ []) : 1 ≤ sizeF fs := by
  cases fs with
  | nil => exact absurd rfl h
  | cons f fs => obtain ⟨k, v⟩ := f; simp [sizeF]

theorem parseStringAux_escape (cs : List Char) : ∀ acc rest,
    parseStringAux (escapeList cs ++ '"' :: rest) acc
      = some (String.mk (acc.reverse ++ cs), rest) := by
  induction cs with
  | nil =>
    intro acc rest
    simp [escapeList, parseStringAux.eq_def]
  | cons c cs ih =>
    intro acc rest
    by_cases hc : c = '"' ∨ c = '\\'
    · have he : escapeChar c = ['\\', c] := by simp [escapeChar, hc]
      simp only [escapeList, he, List.cons_append, List.append_assoc]
      rw [parseStringAux.eq_def]
      simp only [reduceIte, List.nil_append]
      rw [ih (c :: acc) rest]
      simp
    · push_neg at hc
      have he : escapeChar c = [c] := by simp [escapeChar, hc.1, hc.2]
      simp only [escapeList, he, List.cons_append, List.append_assoc]
      rw [parseStringAux.eq_def]
      simp only [if_neg hc.1, if_neg hc.2, List.nil_append]
      rw [ih (c :: acc) rest]
      simp

theorem digitChar_isDigit {d : Nat} (h : d < 10) : (Nat.digitChar d).isDigit = true := by
  interval_cases d <;> decide

theorem digitVal_digitChar {d : Nat} (h : d < 10) : digitVal (Nat.digitChar d) = d := by
  interval_cases d <;> decide

theorem natDigits_ne_nil (n : Nat) : natDigits n ≠ [] := by
  rw [natDigits]
  split <;> simp

theorem natDigits_isDigit (n : Nat) : ∀ c ∈ natDigits n, c.isDigit = true := by
  induction n using Nat.strong_induction_on with
  | _ n ih =>
    rw [natDigits]
    split
    · next h =>
      intro c hc
      simp only [List.mem_singleton] at hc
      subst hc
      exact digitChar_isDigit h
    · next h =>
      intro c hc
      simp only [List.mem_append, List.mem_singleton] at hc
      rcases hc with h' | h'
      · exact ih (n / 10) (Nat.div_lt_self (by omega) (by omega)) c h'
      · subst h'
        exact digitChar_isDigit (Nat.mod_lt _ (by omega))

theorem readDigits_stop {rest : List Char} (h : stopsNum rest = true) (acc : Nat) :
    readDigits rest acc = (acc, rest) := by
  cases rest with
  | nil => rfl
  | cons c cs =>
    simp only [stopsNum, Bool.not_eq_true'] at h
    simp [readDigits, h]

theorem readDigits_natDigits (n : Nat) : ∀ acc rest,
    readDigits (natDigits n ++ rest) acc
      = readDigits rest (acc * 10 ^ (natDigits n).length + n) := by
  induction n using Nat.strong_induction_on with
  | _ n ih =>
    intro acc rest
    rw [natDigits]
    split
    · next h =>
      simp only [List.singleton_append, readDigits, digitChar_isDigit h, if_pos,
        digitVal_digitChar h, List.length_singleton]
      norm_num
    · next h =>
      have hmod : n % 10 < 10 := Nat.mod_lt _ (by omega)
      have hlt : n / 10 < n := Nat.div_lt_self (by omega) (by omega)
      rw [List.append_assoc, ih (n / 10) hlt, List.singleton_append, readDigits]
      simp only [digitChar_isDigit hmod, if_pos, digitVal_digitChar hmod,
        List.length_append, List.length_singleton]
      congr 1
      rw [pow_succ, ← Nat.mul_assoc]
      generalize acc * 10 ^ (natDigits (n / 10)).length = q
      omega

theorem isDigit_ne_delims {c : Char} (h : c.isDigit = true) :
    c ≠ 'n' ∧ c ≠ 't' ∧ c ≠ 'f' ∧ c ≠ '"' ∧ c ≠ '-' ∧ c ≠ '[' ∧ c ≠ '{' ∧
      c ≠ ']' ∧ c ≠ '}' := by
  refine ⟨?_, ?_, ?_, ?_, ?_, ?_, ?_, ?_, ?_⟩ <;>
    · rintro rfl
      exact absurd h (by decide)

theorem readDigits_print (m : Nat) {rest : List Char} (h : stopsNum rest = true) :
    ∃ d ds, natDigits m = d :: ds ∧ d.isDigit = true ∧
      readDigits (ds ++ rest) (digitVal d) = (m, rest) := by
  obtain ⟨d, ds, hds⟩ := List.exists_cons_of_ne_nil (natDigits_ne_nil m)
  have hdig : d.isDigit = true := natDigits_isDigit m d (by rw [hds]; simp)
  refine ⟨d, ds, hds, hdig, ?_⟩
  have h1 : readDigits (natDigits m ++ rest) 0 = (m, rest) := by
    rw [readDigits_natDigits m 0 rest, readDigits_stop h]
    simp
  rw [hds] at h1
  simpa [readDigits, hdig] using h1

theorem parseValue_printInt (i : Int) (fuel : Nat) {rest : List Char}
    (h : stopsNum rest = true) :
    parseValue (fuel + 1) (printInt i ++ rest) = some (.num i, rest) := by
  obtain ⟨d, ds, hds, hdig, hread⟩ := readDigits_print i.natAbs h
  obtain ⟨hn, ht, hf, hq, hm, hlb, hlc, _, _⟩ := isDigit_ne_delims hdig
  by_cases hi : i < 0
  · have hcast : -(i.natAbs : Int) = i := by omega
    rw [printInt, if_pos hi, hds]
    simp only [List.cons_append, parseValue, parseValueStep]
    simp only [reduceIte]
    rw [if_pos hdig]
    simp [hread, hcast]
    rw [abs_of_neg hi, neg_neg]
  · have hcast : (i.natAbs : Int) = i := by omega
    rw [printInt, if_neg hi, hds]
    simp only [List.cons_append, parseValue, parseValueStep]
    simp only [if_neg hn, if_neg ht, if_neg hf, if_neg hq, if_neg hm,
      if_neg hlb, if_neg hlc, if_pos hdig]
    simp [hread, hcast]

theorem printJson_head (j : Json) :
    ∃ c cs, printJson j = c :: cs ∧ c ≠ ']' ∧ c ≠ '}' := by
  cases j with
  | null => exact ⟨'n', _, rfl, by decide, by decide⟩
  | bool b =>
    cases b with
    | false => exact ⟨'f', _, rfl, by decide, by decide⟩
    | true => exact ⟨'t', _, rfl, by decide, by decide⟩
  | num i =>
    by_cases hi : i < 0
    · exact ⟨'-', natDigits i.natAbs, by simp [printJson, printInt, hi], by decide, by decide⟩
    · obtain ⟨d, ds, hds⟩ := List.exists_cons_of_ne_nil (natDigits_ne_nil i.natAbs)
      have hdig : d.isDigit = true := natDigits_isDigit _ d (by rw [hds]; simp)
      obtain ⟨_, _, _, _, _, _, _, h1, h2⟩ := isDigit_ne_delims hdig
      exact ⟨d, ds, by simp [printJson, printInt, hi, hds], h1, h2⟩
  | str s =>
    exact ⟨'"', escapeList s.data ++ ['"'], by simp [printJson, printString], by decide, by decide⟩
  | arr xs => exact ⟨'[', printElems xs ++ [']'], by simp [printJson], by decide, by decide⟩
  | obj fs => exact ⟨'{', printFields fs ++ ['}'], by simp [printJson], by decide, by decide⟩

theorem parse_print_all : ∀ fuel : Nat,
    (∀ j rest, sizeJ j ≤ fuel → stopsNum rest = true →
      parseValue fuel (printJson j ++ rest) = some (j, rest)) ∧
    (∀ xs rest, xs ≠ [] → sizeL xs ≤ fuel →
      parseElems fuel (printElems xs ++ ']' :: rest) = some (xs, rest)) ∧
    (∀ fs rest, fs ≠ [] → sizeF fs ≤ fuel →
      parseFields fuel (printFields fs ++ '}' :: rest) = some (fs, rest)) := by
  intro fuel
  induction fuel using Nat.strong_induction_on with
  | _ fuel ih =>
    match fuel with
    | 0 =>
      refine ⟨?_, ?_, ?_⟩
      · intro j rest hsz _
        have := sizeJ_pos j
        omega
      · intro xs rest hne hsz
        have := sizeL_pos hne
        omega
      · intro fs rest hne hsz
        have := sizeF_pos hne
        omega
    | f + 1 =>
      obtain ⟨ihv, ihe, ihf⟩ := ih f (by omega)
      refine ⟨?_, ?_, ?_⟩
      · intro j rest hsz hstop
        cases j with
        | null => simp [printJson, nullChars, parseValue, parseValueStep]
        | bool b =>
          cases b <;>
            simp [printJson, trueChars, falseChars, parseValue, parseValueStep]
        | num i => exact parseValue_printInt i f hstop
        | str s =>
          have : printJson (.str s) ++ rest
              = '"' :: (escapeList s.data ++ '"' :: rest) := by
            simp [printJson, printString]
          rw [this]
          simp only [parseValue, parseValueStep, reduceIte]
          rw [parseStringAux_escape]
          simp
        | arr xs =>
          cases xs with
          | nil => simp [printJson, printElems, parseValue, parseValueStep]
          | cons x xs' =>
            have hsz' : sizeL (x :: xs') ≤ f := by
              simp only [sizeJ] at hsz
              omega
            obtain ⟨c, cs0, hhead, hc1, hc2⟩ := printJson_head x
            have hZ : ∃ tail, printElems (x :: xs') ++ ']' :: rest = c :: tail := by
              cases xs' with
              | nil => exact ⟨cs0 ++ ']' :: rest, by simp [printElems, hhead]⟩
              | cons y ys =>
                exact ⟨cs0 ++ ',' :: ' ' :: printElems (y :: ys) ++ ']' :: rest,
                  by simp [printElems, hhead]⟩
            obtain ⟨tail, htail⟩ := hZ
            have hmain : printJson (.arr (x :: xs')) ++ rest = '[' :: c :: tail := by
              have h0 : printJson (.arr (x :: xs')) ++ rest
                  = '[' :: (printElems (x :: xs') ++ ']' :: rest) := by
                simp [printJson]
              rw [h0, htail]
            rw [hmain]
            simp only [parseValue, parseValueStep]
            rw [if_neg (by decide : ¬('[' : Char) = 'n'),
              if_neg (by decide : ¬('[' : Char) = 't'),
              if_neg (by decide : ¬('[' : Char) = 'f'),
              if_neg (by decide : ¬('[' : Char) = '"'),
              if_neg (by decide : ¬('[' : Char) = '-')]
            simp only [if_true]
            split
            · next heq =>
              injection heq with h1 _
              exact absurd h1 hc1
            · next =>
              rw [← htail, ihe (x :: xs') rest (by simp) hsz']
        | obj fs =>
          cases fs with
          | nil => simp [printJson, printFields, parseValue, parseValueStep]
          | cons kv fs' =>
            obtain ⟨k, v⟩ := kv
            have hsz' : sizeF ((k, v) :: fs') ≤ f := by
              simp only [sizeJ] at hsz
              omega
            have hZ : ∃ tail, printFields ((k, v) :: fs') ++ '}' :: rest
                = '"' :: tail := by
              cases fs' with
              | nil =>
                exact ⟨escapeList k.data ++ '"' :: ':' :: ' ' :: printJson v ++ '}' :: rest,
                  by simp [printFields, printString]⟩
              | cons kv2 fs'' =>
                exact ⟨escapeList k.data ++ '"' :: ':' :: ' ' :: printJson v ++
                    ',' :: ' ' :: printFields (kv2 :: fs'') ++ '}' :: rest,
                  by simp [printFields, printString]⟩
            obtain ⟨tail, htail⟩ := hZ
            have hmain : printJson (.obj ((k, v) :: fs')) ++ rest = '{' :: '"' :: tail := by
              have h0 : printJson (.obj ((k, v) :: fs')) ++ rest
                  = '{' :: (printFields ((k, v) :: fs') ++ '}' :: rest) := by
                simp [printJson]
              rw [h0, htail]
            rw [hmain]
            simp only [parseValue, parseValueStep]
            rw [if_neg (by decide : ¬('{' : Char) = 'n'),
              if_neg (by decide : ¬('{' : Char) = 't'),
              if_neg (by decide : ¬('{' : Char) = 'f'),
              if_neg (by decide : ¬('{' : Char) = '"'),
              if_neg (by decide : ¬('{' : Char) = '-'),
              if_neg (by decide : ¬('{' : Char) = '[')]
            simp only [if_true]
            split
            · next heq =>
              injection heq with h1 _
              exact absurd h1 (by decide)
            · next =>
              rw [← htail, ihf ((k, v) :: fs') rest (by simp) hsz']
      · intro xs rest hne hsz
        cases xs with
        | nil => exact absurd rfl hne
        | cons x xs' =>
          simp only [parseElems, parseElemsStep]
          cases xs' with
          | nil =>
            have hx : sizeJ x ≤ f := by
              simp only [sizeL] at hsz
              omega
            have hv := ihv x (']' :: rest) hx (by simp [stopsNum])
            simp only [printElems] at hv ⊢
            rw [hv]
            rfl
          | cons y ys =>
            have hx : sizeJ x ≤ f := by
              simp only [sizeL] at hsz
              omega
            have hys : sizeL (y :: ys) ≤ f := by
              have := sizeJ_pos x
              simp only [sizeL] at hsz ⊢
              omega
            have harr : printElems (x :: y :: ys) ++ ']' :: rest
                = printJson x ++ (',' :: ' ' :: (printElems (y :: ys) ++ ']' :: rest)) := by
              simp [printElems]
            rw [harr]
            rw [ihv x _ hx (by simp [stopsNum])]
            have he := ihe (y :: ys) rest (by simp) hys
            simp [he]
      · intro fs rest hne hsz
        cases fs with
        | nil => exact absurd rfl hne
        | cons kv fs' =>
          obtain ⟨k, v⟩ := kv
          simp only [parseFields, parseFieldsStep]
          cases fs' with
          | nil =>
            have hv : sizeJ v ≤ f := by
              simp only [sizeF] at hsz
              omega
            have hflat : printFields [(k, v)] ++ '}' :: rest
                = '"' :: (escapeList k.data ++ '"' ::
                    (':' :: ' ' :: (printJson v ++ '}' :: rest))) := by
              simp [printFields, printString]
            rw [hflat]
            simp only [parseFieldsStep]
            rw [parseStringAux_escape]
            simp only [List.reverse_nil, List.nil_append]
            rw [ihv v ('}' :: rest) hv (by simp [stopsNum])]
            rfl
          | cons kv2 fs'' =>
            have hv : sizeJ v ≤ f := by
              simp only [sizeF] at hsz
              omega
            have hfs : sizeF (kv2 :: fs'') ≤ f := by
              have := sizeJ_pos v
              obtain ⟨k2, v2⟩ := kv2
              simp only [sizeF] at hsz ⊢
              omega
            have hflat : printFields ((k, v) :: kv2 :: fs'') ++ '}' :: rest
                = '"' :: (escapeList k.data ++ '"' ::
                    (':' :: ' ' :: (printJson v ++
                      ',' :: ' ' :: (printFields (kv2 :: fs'') ++ '}' :: rest)))) := by
              simp [printFields, printString]
            rw [hflat]
            simp only [parseFieldsStep]
            rw [parseStringAux_escape]
            simp only [List.reverse_nil, List.nil_append]
            rw [ihv v _ hv (by simp [stopsNum])]
            have hf2 := ihf (kv2 :: fs'') rest (by simp) hfs
            simp [hf2]

mutual

theorem sizeJ_le_print : ∀ j : Json, sizeJ j ≤ (printJson j).length
  | .null => by simp [sizeJ, printJson, nullChars]
  | .bool true => by simp [sizeJ, printJson, trueChars]
  | .bool false => by simp [sizeJ, printJson, falseChars]
  | .num i => by
    have h := natDigits_ne_nil i.natAbs
    have : 1 ≤ (natDigits i.natAbs).length := by
      cases hn : natDigits i.natAbs with
      | nil => exact absurd hn h
      | cons a l => simp
    simp only [sizeJ, printJson, printInt]
    split
    · simp
    · simp
      omega
  | .str s => by simp [sizeJ, printJson, printString]
  | .arr xs => by
    have h := sizeL_le_print xs
    simp only [sizeJ, printJson, List.length_cons, List.length_append,
      List.length_singleton]
    omega
  | .obj fs => by
    have h := sizeF_le_print fs
    simp only [sizeJ, printJson, List.length_cons, List.length_append,
      List.length_singleton]
    omega

theorem sizeL_le_print : ∀ xs : List Json, sizeL xs ≤ (printElems xs).length + 1
  | [] => by simp [sizeL, printElems]
  | [x] => by
    have h := sizeJ_le_print x
    simp only [sizeL, printElems]
    omega
  | x :: y :: ys => by
    have h1 := sizeJ_le_print x
    have h2 := sizeL_le_print (y :: ys)
    simp only [sizeL] at h2
    simp only [sizeL, printElems, List.length_append, List.length_cons]
    omega

theorem sizeF_le_print : ∀ fs : List (String × Json), sizeF fs ≤ (printFields fs).length + 1
  | [] => by simp [sizeF, printFields]
  | [(k, v)] => by
    have h := sizeJ_le_print v
    simp only [sizeF, printFields, List.length_append, List.length_cons]
    omega
  | (k, v) :: f2 :: fs => by
    have h1 := sizeJ_le_print v
    have h2 := sizeF_le_print (f2 :: fs)
    obtain ⟨k2, v2⟩ := f2
    simp only [sizeF] at h2
    simp only [sizeF, printFields, List.length_append, List.length_cons]
    omega

end

/-- The serialization round trip loses no information: parsing the canonical
printed form of any JSON value returns the value itself. -/
theorem json_loads_dumps (j : Json) : json_loads (json_dumps j) = some j := by
  have hfuel : sizeJ j ≤ (printJson j).length + 1 := by
    have := sizeJ_le_print j
    omega
  have h := (parse_print_all ((printJson j).length + 1)).1 j [] hfuel rfl
  rw [List.append_nil] at h
  show (match parseValue ((printJson j).length + 1) (printJson j) with
    | some (j, []) => some j
    | _ => none) = some j
  rw [h]

/-! ## The data model (`main.py` lines 44-58)

One row of the `videos` table. `video_id` carries a SQL `unique=True`
constraint; `frequency` defaults to 1, `likes`/`dislikes` to 0, and
`version` to the literal `1` stored in a `String` column. `ai_content` is
the JSON string produced by `json.dumps`, `timestamp` an abstract clock
value. -/

structure Video where
  id : Nat
  video_id : String
  timestamp : Nat
  frequency : Nat
  ai_content : String
  transcript : String
  likes : Nat
  dislikes : Nat
  version : String

/-- The Flask `SimpleCache` (`CACHE_TYPE: SimpleCache`, 15-minute default
timeout): an association list keyed by `video_id`, newest binding first.
TTL expiry is a wall-clock concern and is outside the model; the embedding
captures exactly the mutations the code performs (`cache.set` only). -/
abbrev Cache := List (String × Json)

/-- `cache.get(key)`: the newest binding for the key, if any. -/
def cache_get : Cache → String → Option Json
  | [], _ => none
  | (k', v) :: c, k => if k' = k then some v else cache_get c k

/-- `cache.set(key, value)`: bind the key, shadowing older bindings. -/
def cache_set (c : Cache) (k : String) (v : Json) : Cache := (k, v) :: c

/-- The mutable process state: the `videos` table (in insertion order, as
SQLite returns it absent an ORDER BY) and the in-memory cache. -/
structure AppState where
  db : List Video
  cache : Cache

/-- `session.query(Video).filter_by(video_id=vid).first()`. -/
def db_find : List Video → String → Option Video
  | [], _ => none
  | v :: vs, vid => if v.video_id = vid then some v else db_find vs vid

/-- `video.frequency += 1; session.commit()` applied to the row returned by
`first()`: increments the first matching record. -/
def db_increment_first : List Video → String → List Video
  | [], _ => []
  | v :: vs, vid =>
    if v.video_id = vid then { v with frequency := v.frequency + 1 } :: vs
    else v :: db_increment_first vs vid

/-! ## The request handlers and the scheduled job -/

/-- Outcome of `GET /check_video_id` (`main.py` lines 198-231). -/
inductive LookupResult where
  /-- 200 with `{"result": ...}`. -/
  | ok (result : Json)
  /-- 400, `Missing video_id parameter`. -/
  | missingParam
  /-- 404, `Video ID not found`. -/
  | notFound
  /-- `json.loads(video.ai_content)` raised; the exception escapes the
  handler (Flask answers 500). -/
  | contentError

/-- HTTP status code of a lookup outcome. -/
def LookupResult.statusCode : LookupResult → Nat
  | .ok _ => 200
  | .missingParam => 400
  | .notFound => 404
  | .contentError => 500

/-- The Durable-Store branch of `check_video_id` (`main.py` lines 217-228):
find the record, increment its `frequency` and commit, then parse its
`ai_content`. The increment is committed before the parse, so it persists
even when parsing raises. -/
def check_db (st : AppState) (vid : String) : LookupResult × AppState :=
  match db_find st.db vid with
  | none => (.notFound, st)
  | some video =>
    let db' := db_increment_first st.db vid
    match json_loads video.ai_content with
    | some j => (.ok j, { st with db := db' })
    | none => (.contentError, { st with db := db' })

/-- `check_video_id` (`main.py` lines 198-231). `video_id` is
`request.args.get('video_id')` (`none` when absent); `if not video_id`
also rejects the empty string. The cache branch tests Python truthiness of
`cache.get`'s result (`if cached_result:`), so a falsy cached value falls
through to the database. -/
def check_video_id (st : AppState) (video_id : Option String) :
    LookupResult × AppState :=
  match video_id with
  | none => (.missingParam, st)
  | some vid =>
    if vid = "" then (.missingParam, st)
    else
      match cache_get st.cache vid with
      | some cached =>
        if pyTruthy cached then (.ok cached, st) else check_db st vid
      | none => check_db st vid

/-- `ai_chapters` (`main.py` lines 161-180). The external call
`agent.generate_content(prompt)` is abstracted as the parameter `gen`:
`none` models the call raising (re-raised by `ai_chapters`), `some text` a
response with `response.text = text`. When `json.loads(response.text)`
fails, the raw text is returned instead — a Python `str`, which the callers
treat as the chapters value (`Json.str text`). -/
def ai_chapters (gen : Option String) : Except Unit Json :=
  match gen with
  | none => .error ()
  | some text =>
    match json_loads text with
    | some chapters => .ok chapters
    | none => .ok (.str text)

/-- Outcome of `POST /process_video` (`main.py` lines 233-267). -/
inductive IngestResult where
  /-- 201 with `{"result": chapters}`. -/
  | created (result : Json)
  /-- 400, `Missing video_id`. -/
  | missingVideoId
  /-- 400, `Missing transcript for new video_id`. -/
  | missingTranscript
  /-- 500, `Failed to generate chapters`. -/
  | generationFailed
  /-- `session.commit()` raised `IntegrityError` on the `video_id` unique
  constraint; the exception escapes the handler (Flask answers 500). -/
  | dbIntegrityError

/-- HTTP status code of an ingest outcome. -/
def IngestResult.statusCode : IngestResult → Nat
  | .created _ => 201
  | .missingVideoId => 400
  | .missingTranscript => 400
  | .generationFailed => 500
  | .dbIntegrityError => 500

/-- `process_video` (`main.py` lines 233-267): validate (`if not video_id`,
`if not transcript` — empty strings are falsy), generate chapters,
serialize with `json.dumps`, and insert a new `Video` row with the schema
defaults (`frequency = 1`, `likes = dislikes = 0`, `version = "1"`,
autoincrement `id`). There is no duplicate check: inserting an existing
`video_id` violates the unique constraint, the commit raises, and the
state is unchanged. -/
def process_video (st : AppState) (gen : Option String)
    (video_id transcript : Option String) (now : Nat) :
    IngestResult × AppState :=
  match video_id with
  | none => (.missingVideoId, st)
  | some vid =>
    if vid = "" then (.missingVideoId, st)
    else
      match transcript with
      | none => (.missingTranscript, st)
      | some t =>
        if t = "" then (.missingTranscript, st)
        else
          match ai_chapters gen with
          | .error _ => (.generationFailed, st)
          | .ok chapters =>
            let new_video : Video :=
              { id := st.db.length + 1, video_id := vid, timestamp := now,
                frequency := 1, ai_content := json_dumps chapters,
                transcript := t, likes := 0, dislikes := 0, version := "1" }
            if (db_find st.db vid).isSome then (.dbIntegrityError, st)
            else (.created chapters, { st with db := st.db ++ [new_video] })

/-- Stable insertion into a frequency-descending list: the new element goes
before the first strictly-less-frequent element, after equal frequencies
already present from earlier positions... the element being inserted comes
from an earlier position of the original list, so it precedes ties. -/
def insertByFreq (v : Video) : List Video → List Video
  | [] => [v]
  | w :: ws =>
    if w.frequency ≤ v.frequency then v :: w :: ws else w :: insertByFreq v ws

/-- `session.query(Video).order_by(Video.frequency.desc()).all()`: the
table sorted by `frequency` descending (stable insertion sort; SQLite's
tie order is implementation-defined). -/
def sortByFreqDesc : List Video → List Video
  | [] => []
  | v :: vs => insertByFreq v (sortByFreqDesc vs)

/-- The `for video in top_videos` loop of `update_cache_with_top_videos`:
`cache.set(video_id, json.loads(video.ai_content))` for each video. A
`json.loads` failure raises out of the job (`false`), keeping the cache
insertions already performed. -/
def cacheTopLoop : List Video → Cache → Cache × Bool
  | [], c => (c, true)
  | v :: vs, c =>
    match json_loads v.ai_content with
    | some j => cacheTopLoop vs (cache_set c v.video_id j)
    | none => (c, false)

/-- `update_cache_with_top_videos` (`main.py` lines 133-155): sort by
frequency descending, take the top `max(1, int(total * 0.3))` records
(`int` truncates; the float product is modelled exactly as `3 * total / 10`
in natural-number arithmetic) and `cache.set` each one's parsed
`ai_content`. The cache is never cleared. The boolean reports whether the
job ran to completion. -/
def update_cache_with_top_videos (st : AppState) : AppState × Bool :=
  let all_videos := sortByFreqDesc st.db
  let total_videos := all_videos.length
  let top_videos_count := max 1 (3 * total_videos / 10)
  let top_videos := all_videos.take top_videos_count
  let r := cacheTopLoop top_videos st.cache
  ({ st with cache := r.1 }, r.2)

/-! ## Helper lemmas about the cache, the store, and the scheduler loop -/

theorem cache_get_set_self (c : Cache) (k : String) (v : Json) :
    cache_get (cache_set c k v) k = some v := by
  simp [cache_get, cache_set]

theorem cache_get_set_other (c : Cache) (k k' : String) (v : Json) (h : k ≠ k') :
    cache_get (cache_set c k v) k' = cache_get c k' := by
  simp [cache_get, cache_set, h]

theorem db_increment_first_find {db : List Video} {vid : String} {r : Video}
    (h : db_find db vid = some r) :
    db_find (db_increment_first db vid) vid
      = some { r with frequency := r.frequency + 1 } := by
  induction db with
  | nil => simp [db_find] at h
  | cons v vs ih =>
    by_cases hv : v.video_id = vid
    · simp only [db_find, if_pos hv, Option.some.injEq] at h
      subst h
      simp [db_increment_first, db_find, hv]
    · simp only [db_find, if_neg hv] at h
      simp [db_increment_first, db_find, hv, ih h]

theorem db_increment_first_length (db : List Video) (vid : String) :
    (db_increment_first db vid).length = db.length := by
  induction db with
  | nil => rfl
  | cons v vs ih =>
    by_cases hv : v.video_id = vid <;> simp [db_increment_first, hv, ih]

theorem db_increment_first_mem {db : List Video} {vid : String} {w : Video}
    (hw : w ∈ db) (hne : w.video_id ≠ vid) :
    w ∈ db_increment_first db vid := by
  induction db with
  | nil => simp at hw
  | cons v vs ih =>
    by_cases hv : v.video_id = vid
    · simp only [db_increment_first, if_pos hv]
      rcases List.mem_cons.mp hw with h | h
      · exact absurd (h ▸ hv) hne
      · exact List.mem_cons_of_mem _ h
    · simp only [db_increment_first, if_neg hv]
      rcases List.mem_cons.mp hw with h | h
      · exact h ▸ List.mem_cons_self _ _
      · exact List.mem_cons_of_mem _ (ih h)

theorem db_find_append_none {db : List Video} {vid : String}
    (h : db_find db vid = none) (v : Video) :
    db_find (db ++ [v]) vid = if v.video_id = vid then some v else none := by
  induction db with
  | nil => simp [db_find]
  | cons w ws ih =>
    by_cases hw : w.video_id = vid
    · simp [db_find, hw] at h
    · simp only [db_find, if_neg hw] at h
      simp [db_find, if_neg hw, ih h]

theorem insertByFreq_perm (v : Video) (l : List Video) :
    List.Perm (insertByFreq v l) (v :: l) := by
  induction l with
  | nil => exact List.Perm.refl _
  | cons w ws ih =>
    by_cases h : w.frequency ≤ v.frequency
    · simp [insertByFreq, h]
    · simp only [insertByFreq, if_neg h]
      exact List.Perm.trans (List.Perm.cons w ih) (List.Perm.swap v w ws)

theorem sortByFreqDesc_perm (db : List Video) : List.Perm (sortByFreqDesc db) db := by
  induction db with
  | nil => exact List.Perm.refl _
  | cons v vs ih =>
    exact List.Perm.trans (insertByFreq_perm v (sortByFreqDesc vs))
      (List.Perm.cons v ih)

theorem sortByFreqDesc_mem {db : List Video} {v : Video}
    (h : v ∈ sortByFreqDesc db) : v ∈ db :=
  (sortByFreqDesc_perm db).mem_iff.mp h

theorem sortByFreqDesc_length (db : List Video) :
    (sortByFreqDesc db).length = db.length :=
  (sortByFreqDesc_perm db).length_eq

theorem sortByFreqDesc_nodup_ids {db : List Video}
    (h : (db.map Video.video_id).Nodup) :
    ((sortByFreqDesc db).map Video.video_id).Nodup :=
  (((sortByFreqDesc_perm db).map Video.video_id).nodup_iff).mpr h

theorem cacheTopLoop_frame (L : List Video) : ∀ (c : Cache) (k : String),
    k ∉ L.map Video.video_id →
    cache_get (cacheTopLoop L c).1 k = cache_get c k := by
  induction L with
  | nil => intro c k _; rfl
  | cons v vs ih =>
    intro c k h
    simp only [List.map_cons, List.mem_cons, not_or] at h
    obtain ⟨h1, h2⟩ := h
    simp only [cacheTopLoop]
    cases hp : json_loads v.ai_content with
    | none => rfl
    | some j => rw [ih _ k h2, cache_get_set_other _ _ _ _ (Ne.symm h1)]

theorem cacheTopLoop_success (L : List Video) : ∀ c : Cache,
    (∀ v ∈ L, (json_loads v.ai_content).isSome = true) →
    (cacheTopLoop L c).2 = true := by
  induction L with
  | nil => intro c _; rfl
  | cons v vs ih =>
    intro c hall
    obtain ⟨j, hj⟩ := Option.isSome_iff_exists.mp (hall v (by simp))
    simp only [cacheTopLoop, hj]
    exact ih _ fun u hu => hall u (by simp [hu])

theorem cacheTopLoop_mem (L : List Video) : ∀ c : Cache,
    (∀ v ∈ L, (json_loads v.ai_content).isSome = true) →
    (L.map Video.video_id).Nodup →
    ∀ v ∈ L, cache_get (cacheTopLoop L c).1 v.video_id = json_loads v.ai_content := by
  induction L with
  | nil => intro c _ _ v hv; simp at hv
  | cons w ws ih =>
    intro c hall hnd v hv
    obtain ⟨j, hj⟩ := Option.isSome_iff_exists.mp (hall w (by simp))
    simp only [cacheTopLoop, hj]
    simp only [List.map_cons, List.nodup_cons] at hnd
    rcases List.mem_cons.mp hv with h | h
    · subst h
      rw [cacheTopLoop_frame ws _ _ hnd.1, cache_get_set_self, hj]
    · exact ih _ (fun u hu => hall u (by simp [hu])) hnd.2 v h

theorem cacheTopLoop_keeps (L : List Video) : ∀ (c : Cache) (k : String) (j : Json),
    cache_get c k = some j →
    ∃ j', cache_get (cacheTopLoop L c).1 k = some j' := by
  induction L with
  | nil => intro c k j h; exact ⟨j, h⟩
  | cons v vs ih =>
    intro c k j h
    simp only [cacheTopLoop]
    cases hp : json_loads v.ai_content with
    | none => exact ⟨j, h⟩
    | some jv =>
      by_cases hk : v.video_id = k
      · exact ih _ _ jv (hk ▸ cache_get_set_self c v.video_id jv)
      · exact ih _ _ j (by rw [cache_get_set_other _ _ _ _ hk]; exact h)

theorem check_db_cache (st : AppState) (vid : String) :
    (check_db st vid).2.cache = st.cache := by
  cases hf : db_find st.db vid with
  | none => simp [check_db, hf]
  | some v => cases hp : json_loads v.ai_content <;> simp [check_db, hf, hp]

theorem check_video_id_cache (st : AppState) (a : Option String) :
    (check_video_id st a).2.cache = st.cache := by
  cases a with
  | none => rfl
  | some vid =>
    by_cases h : vid = ""
    · simp [check_video_id, h]
    · simp only [check_video_id, if_neg h]
      cases hc : cache_get st.cache vid with
      | none => exact check_db_cache st vid
      | some cached =>
        by_cases ht : pyTruthy cached = true
        · simp [ht]
        · simp only [ht, if_neg]
          exact check_db_cache st vid

theorem process_video_cache (st : AppState) (gen vidO tO : Option String) (now : Nat) :
    (process_video st gen vidO tO now).2.cache = st.cache := by
  cases vidO with
  | none => rfl
  | some vid =>
    by_cases h1 : vid = ""
    · simp [process_video, h1]
    · simp only [process_video, if_neg h1]
      cases tO with
      | none => rfl
      | some t =>
        by_cases h2 : t = ""
        · simp [h2]
        · simp only [if_neg h2]
          cases ai_chapters gen with
          | error e => rfl
          | ok ch =>
            by_cases hd : (db_find st.db vid).isSome = true <;> simp [hd]

/-! ## Fixtures used by witnesses and counterexamples -/

/-- A store record with the given id, key, frequency and serialized content. -/
def mkVideo (i : Nat) (vid : String) (freq : Nat) (content : String) : Video :=
  { id := i, video_id := vid, timestamp := 0, frequency := freq,
    ai_content := content, transcript := "t", likes := 0, dislikes := 0,
    version := "1" }

/-- Five records with frequencies 10, 8, 6, 4, 2 (the spec's scheduler
example), distinct ids, empty cache. -/
def exFiveState : AppState :=
  { db := [mkVideo 1 "v1" 10 "[1]", mkVideo 2 "v2" 8 "[2]",
           mkVideo 3 "v3" 6 "[3]", mkVideo 4 "v4" 4 "[4]",
           mkVideo 5 "v5" 2 "[5]"],
    cache := [] }

/-- One record plus a pre-existing cache entry under an unrelated key. -/
def exStaleState : AppState :=
  { db := [mkVideo 1 "v1" 10 "[1]"], cache := [("other", .num 1)] }

/-- One record, empty cache. -/
def exDbOnly : AppState := { db := [mkVideo 1 "v1" 10 "[1]"], cache := [] }

/-! ## The claims -/

/-- Claim C1 (code bug): for an Ingest whose generator output cannot be
parsed as structured chapters (here the text `","`, with `json_loads`
returning `none`), `process_video` does not fail with a 5xx
`GenerationFailed`: `ai_chapters` falls back to the raw text, a
`VideoRecord` is persisted with transcript and video_id, and a 201 success
payload carrying the unstructured raw text is returned. -/
theorem C1_parse_failure_persists_and_returns_raw :
    json_loads "," = none ∧
    process_video { db := [], cache := [] } (some ",") (some "vid1") (some "tr") 7
      = (.created (.str ","),
         { db := [{ id := 1, video_id := "vid1", timestamp := 7, frequency := 1,
                    ai_content := "\",\"", transcript := "tr", likes := 0,
                    dislikes := 0, version := "1" }], cache := [] }) ∧
    (IngestResult.created (.str ",")).statusCode = 201 :=
  ⟨rfl, rfl, rfl⟩

/-- Claim C2 counterexample: with five records of frequencies
[10, 8, 6, 4, 2] a tick caches only `max(1, int(5 * 0.3)) = 1` entry, not
the `ceil(5 * 0.3) = 2` entries the claim asserts: the frequency-8 record
`v2` is absent from the cache afterwards (while `v1` is present). -/
theorem C2_counterexample_five_records :
    cache_get (update_cache_with_top_videos exFiveState).1.cache "v2" = none ∧
    cache_get (update_cache_with_top_videos exFiveState).1.cache "v1"
      = some (.arr [.num 1]) :=
  ⟨rfl, rfl⟩

/-- Claim C2 (amended): a tick over a non-empty store inserts into the
cache the content of the top `max(1, ⌊0.3 n⌋)` records ranked by frequency
descending — always at least 1 — keyed by video_id; with five records of
frequencies [10, 8, 6, 4, 2] that is exactly the top 1 entry (frequency
10). -/
theorem C2_amended_caches_top_floor (st : AppState)
    (hne : st.db ≠ [])
    (hnd : (st.db.map Video.video_id).Nodup)
    (hparse : ∀ v ∈ st.db, (json_loads v.ai_content).isSome = true) :
    1 ≤ max 1 (3 * st.db.length / 10) ∧
    (update_cache_with_top_videos st).2 = true ∧
    (sortByFreqDesc st.db).take (max 1 (3 * st.db.length / 10)) ≠ [] ∧
    ∀ v ∈ (sortByFreqDesc st.db).take (max 1 (3 * st.db.length / 10)),
      cache_get (update_cache_with_top_videos st).1.cache v.video_id
        = json_loads v.ai_content := by
  have hlen : (sortByFreqDesc st.db).length = st.db.length :=
    sortByFreqDesc_length st.db
  have hparse' : ∀ v ∈ (sortByFreqDesc st.db).take (max 1 (3 * st.db.length / 10)),
      (json_loads v.ai_content).isSome = true :=
    fun v hv => hparse v (sortByFreqDesc_mem (List.take_subset _ _ hv))
  have hnd' : (((sortByFreqDesc st.db).take
      (max 1 (3 * st.db.length / 10))).map Video.video_id).Nodup :=
    ((sortByFreqDesc_nodup_ids hnd).sublist
      ((List.take_sublist _ _).map Video.video_id))
  refine ⟨le_max_left 1 _, ?_, ?_, ?_⟩
  · simp only [update_cache_with_top_videos, hlen]
    exact cacheTopLoop_success _ _ hparse'
  · have h1 : 0 < (sortByFreqDesc st.db).length := by
      rw [hlen]
      exact List.length_pos.mpr hne
    have h2 : 0 < ((sortByFreqDesc st.db).take
        (max 1 (3 * st.db.length / 10))).length := by
      rw [List.length_take]
      have : 1 ≤ max 1 (3 * st.db.length / 10) := le_max_left 1 _
      omega
    exact List.ne_nil_of_length_pos h2
  · intro v hv
    simp only [update_cache_with_top_videos, hlen]
    exact cacheTopLoop_mem _ _ hparse' hnd' v hv

theorem C2_amended_witness :
    exFiveState.db ≠ [] ∧
    (exFiveState.db.map Video.video_id).Nodup ∧
    (∀ v ∈ exFiveState.db, (json_loads v.ai_content).isSome = true) ∧
    (1 ≤ max 1 (3 * exFiveState.db.length / 10) ∧
     (update_cache_with_top_videos exFiveState).2 = true ∧
     (sortByFreqDesc exFiveState.db).take (max 1 (3 * exFiveState.db.length / 10))
       ≠ [] ∧
     ∀ v ∈ (sortByFreqDesc exFiveState.db).take
         (max 1 (3 * exFiveState.db.length / 10)),
       cache_get (update_cache_with_top_videos exFiveState).1.cache v.video_id
         = json_loads v.ai_content) :=
  ⟨by simp [exFiveState], by decide, by decide,
    C2_amended_caches_top_floor exFiveState (by simp [exFiveState]) (by decide)
      (by decide)⟩

/-- Claim C3 counterexample: a tick performs no clear. With one record
(`v1`) and a pre-existing cache entry under the key `"other"` — a key not
in the top set — the entry is still present after the tick, where the
claim requires it to be absent. -/
theorem C3_counterexample_stale_entry_survives :
    ((sortByFreqDesc exStaleState.db).take 1).map Video.video_id = ["v1"] ∧
    cache_get (update_cache_with_top_videos exStaleState).1.cache "other"
      = some (.num 1) :=
  ⟨rfl, rfl⟩

/-- Claim C3 (amended): a tick inserts (or overwrites) the top
`top_count` records' content keyed by video_id but performs no clear:
every cache key outside the current top set — including entries cached by
earlier ticks — is left exactly as it was (such entries disappear only by
TTL expiry, outside this model). -/
theorem C3_amended_repopulate_without_clear (st : AppState)
    (hnd : (st.db.map Video.video_id).Nodup)
    (hparse : ∀ v ∈ st.db, (json_loads v.ai_content).isSome = true) :
    (∀ v ∈ (sortByFreqDesc st.db).take (max 1 (3 * st.db.length / 10)),
      cache_get (update_cache_with_top_videos st).1.cache v.video_id
        = json_loads v.ai_content) ∧
    (∀ key, key ∉ ((sortByFreqDesc st.db).take
        (max 1 (3 * st.db.length / 10))).map Video.video_id →
      cache_get (update_cache_with_top_videos st).1.cache key
        = cache_get st.cache key) := by
  have hlen : (sortByFreqDesc st.db).length = st.db.length :=
    sortByFreqDesc_length st.db
  have hparse' : ∀ v ∈ (sortByFreqDesc st.db).take (max 1 (3 * st.db.length / 10)),
      (json_loads v.ai_content).isSome = true :=
    fun v hv => hparse v (sortByFreqDesc_mem (List.take_subset _ _ hv))
  have hnd' : (((sortByFreqDesc st.db).take
      (max 1 (3 * st.db.length / 10))).map Video.video_id).Nodup :=
    ((sortByFreqDesc_nodup_ids hnd).sublist
      ((List.take_sublist _ _).map Video.video_id))
  constructor
  · intro v hv
    simp only [update_cache_with_top_videos, hlen]
    exact cacheTopLoop_mem _ _ hparse' hnd' v hv
  · intro key hkey
    simp only [update_cache_with_top_videos, hlen]
    exact cacheTopLoop_frame _ _ key hkey

theorem C3_amended_witness :
    (exStaleState.db.map Video.video_id).Nodup ∧
    (∀ v ∈ exStaleState.db, (json_loads v.ai_content).isSome = true) ∧
    ((∀ v ∈ (sortByFreqDesc exStaleState.db).take
        (max 1 (3 * exStaleState.db.length / 10)),
      cache_get (update_cache_with_top_videos exStaleState).1.cache v.video_id
        = json_loads v.ai_content) ∧
     (∀ key, key ∉ ((sortByFreqDesc exStaleState.db).take
         (max 1 (3 * exStaleState.db.length / 10))).map Video.video_id →
       cache_get (update_cache_with_top_videos exStaleState).1.cache key
         = cache_get exStaleState.cache key)) :=
  ⟨by decide, by decide,
    C3_amended_repopulate_without_clear exStaleState (by decide) (by decide)⟩

/-- Claim C4: ingesting a `video_id` already present in the store fails —
there is no duplicate check in `process_video`, so the insert violates the
`unique=True` constraint and the commit raises — and never overwrites: the
whole state, hence the existing record's content and frequency, is
unchanged, and no record is created. -/
theorem C4_duplicate_ingest_fails_unchanged (st : AppState) (gen : Option String)
    (vid : String) (t : Option String) (now : Nat)
    (hdup : (db_find st.db vid).isSome = true) :
    (∀ c, (process_video st gen (some vid) t now).1 ≠ .created c) ∧
    (process_video st gen (some vid) t now).2 = st := by
  by_cases h1 : vid = ""
  · simp [process_video, h1]
  · simp only [process_video, if_neg h1]
    cases t with
    | none => simp
    | some t0 =>
      by_cases h2 : t0 = ""
      · simp [h2]
      · simp only [if_neg h2]
        cases hg : ai_chapters gen with
        | error e => simp
        | ok ch => simp [hdup]

theorem C4_witness :
    (db_find exStaleState.db "v1").isSome = true ∧
    ((∀ c, (process_video exStaleState (some "[]") (some "v1") (some "t") 0).1
        ≠ .created c) ∧
     (process_video exStaleState (some "[]") (some "v1") (some "t") 0).2
        = exStaleState) :=
  ⟨rfl, C4_duplicate_ingest_fails_unchanged exStaleState (some "[]") "v1"
    (some "t") 0 rfl⟩

/-- Claim C5: a lookup that misses the cache and finds a record in the
store increments exactly that record's frequency by exactly 1 (the store
keeps its length and every other record), returns the record's
deserialized content, and leaves the cache alone. -/
theorem C5_store_hit_increments_and_returns (st : AppState) (vid : String)
    (r : Video) (j : Json)
    (hvid : vid ≠ "")
    (hmiss : cache_get st.cache vid = none)
    (hfind : db_find st.db vid = some r)
    (hparse : json_loads r.ai_content = some j) :
    (check_video_id st (some vid)).1 = .ok j ∧
    db_find (check_video_id st (some vid)).2.db vid
      = some { r with frequency := r.frequency + 1 } ∧
    (check_video_id st (some vid)).2.db.length = st.db.length ∧
    (∀ w ∈ st.db, w.video_id ≠ vid → w ∈ (check_video_id st (some vid)).2.db) ∧
    (check_video_id st (some vid)).2.cache = st.cache := by
  have hcv : check_video_id st (some vid)
      = (.ok j, { st with db := db_increment_first st.db vid }) := by
    simp [check_video_id, if_neg hvid, hmiss, check_db, hfind, hparse]
  rw [hcv]
  exact ⟨rfl, db_increment_first_find hfind, db_increment_first_length _ _,
    fun w hw hne => db_increment_first_mem hw hne, rfl⟩

theorem C5_witness :
    ("v1" : String) ≠ "" ∧
    cache_get exDbOnly.cache "v1" = none ∧
    db_find exDbOnly.db "v1" = some (mkVideo 1 "v1" 10 "[1]") ∧
    json_loads (mkVideo 1 "v1" 10 "[1]").ai_content = some (.arr [.num 1]) ∧
    ((check_video_id exDbOnly (some "v1")).1 = .ok (.arr [.num 1]) ∧
     db_find (check_video_id exDbOnly (some "v1")).2.db "v1"
       = some { mkVideo 1 "v1" 10 "[1]" with frequency := 11 } ∧
     (check_video_id exDbOnly (some "v1")).2.db.length = exDbOnly.db.length ∧
     (∀ w ∈ exDbOnly.db, w.video_id ≠ "v1" →
        w ∈ (check_video_id exDbOnly (some "v1")).2.db) ∧
     (check_video_id exDbOnly (some "v1")).2.cache = exDbOnly.cache) :=
  ⟨by decide, rfl, rfl, rfl,
    C5_store_hit_increments_and_returns exDbOnly "v1" (mkVideo 1 "v1" 10 "[1]")
      (.arr [.num 1]) (by decide) rfl rfl rfl⟩

/-- Claim C6: a successful Ingest creates the record with frequency 1 and
content serialized losslessly, so a subsequent Lookup (with the freshly
ingested id not yet cached) returns content structurally equal to what
Ingest returned. -/
theorem C6_ingest_lookup_round_trip (st : AppState) (gen : Option String)
    (vid t : String) (now : Nat) (c : Json) (st1 : AppState)
    (hmiss : cache_get st.cache vid = none)
    (hsucc : process_video st gen (some vid) (some t) now = (.created c, st1)) :
    (∃ r, db_find st1.db vid = some r ∧ r.frequency = 1 ∧
      r.ai_content = json_dumps c) ∧
    (check_video_id st1 (some vid)).1 = .ok c := by
  by_cases h1 : vid = ""
  · simp [process_video, h1] at hsucc
  · by_cases h2 : t = ""
    · simp [process_video, if_neg h1, h2] at hsucc
    · cases hg : ai_chapters gen with
      | error e => simp [process_video, if_neg h1, if_neg h2, hg] at hsucc
      | ok ch =>
        by_cases hd : (db_find st.db vid).isSome = true
        · simp [process_video, if_neg h1, if_neg h2, hg, hd] at hsucc
        · have hnone : db_find st.db vid = none := by
            cases hf : db_find st.db vid with
            | none => rfl
            | some w => rw [hf] at hd; simp at hd
          simp only [process_video, if_neg h1, if_neg h2, hg, hnone,
            Option.isSome_none, Bool.false_eq_true, if_false, Prod.mk.injEq,
            IngestResult.created.injEq] at hsucc
          obtain ⟨hch, hst1⟩ := hsucc
          subst hch
          have hdb1 : st1.db = st.db ++
              [{ id := st.db.length + 1, video_id := vid, timestamp := now,
                 frequency := 1, ai_content := json_dumps ch,
                 transcript := t, likes := 0, dislikes := 0, version := "1" }] := by
            rw [← hst1]
          have hcache1 : st1.cache = st.cache := by rw [← hst1]
          have hfind1 : db_find st1.db vid = some
              { id := st.db.length + 1, video_id := vid, timestamp := now,
                frequency := 1, ai_content := json_dumps ch,
                transcript := t, likes := 0, dislikes := 0, version := "1" } := by
            rw [hdb1, db_find_append_none hnone]
            simp
          refine ⟨⟨_, hfind1, rfl, rfl⟩, ?_⟩
          have hparse1 : json_loads (json_dumps ch) = some ch := json_loads_dumps ch
          simp [check_video_id, if_neg h1, hcache1, hmiss, check_db, hfind1,
            hparse1]

/-- The state after ingesting `("v", "t")` into the empty state with
generator output `"[]"`. -/
def exAfterIngest : AppState :=
  { db := [{ id := 1, video_id := "v", timestamp := 0, frequency := 1,
             ai_content := "[]", transcript := "t", likes := 0,
             dislikes := 0, version := "1" }],
    cache := [] }

theorem C6_witness :
    cache_get (AppState.mk [] []).cache "v" = none ∧
    process_video { db := [], cache := [] } (some "[]") (some "v") (some "t") 0
      = (.created (.arr []), exAfterIngest) ∧
    ((∃ r, db_find exAfterIngest.db "v" = some r ∧ r.frequency = 1 ∧
        r.ai_content = json_dumps (.arr [])) ∧
     (check_video_id exAfterIngest (some "v")).1 = .ok (.arr [])) :=
  ⟨rfl, rfl,
    C6_ingest_lookup_round_trip { db := [], cache := [] } (some "[]") "v" "t" 0
      (.arr []) exAfterIngest rfl rfl⟩

/-- Claim C7: a lookup satisfied by the cache (a truthy cached value)
returns the cached content with no further side effects: the returned
state is exactly the input state, so no frequency is incremented and
neither the cache nor any store record is mutated. -/
theorem C7_cache_hit_pure (st : AppState) (vid : String) (j : Json)
    (hvid : vid ≠ "") (hhit : cache_get st.cache vid = some j)
    (htruthy : pyTruthy j = true) :
    check_video_id st (some vid) = (.ok j, st) := by
  simp [check_video_id, if_neg hvid, hhit, htruthy]

theorem C7_witness :
    ("other" : String) ≠ "" ∧
    cache_get exStaleState.cache "other" = some (.num 1) ∧
    pyTruthy (.num 1) = true ∧
    check_video_id exStaleState (some "other") = (.ok (.num 1), exStaleState) :=
  ⟨by decide, rfl, rfl,
    C7_cache_hit_pure exStaleState "other" (.num 1) (by decide) rfl rfl⟩

/-- Claim C8: a tick over an empty store mutates nothing and completes
normally: `top_videos` is the empty slice, the loop body never runs, the
state is returned unchanged and no exception is raised. -/
theorem C8_empty_store_tick_no_op (st : AppState) (h : st.db = []) :
    update_cache_with_top_videos st = (st, true) := by
  obtain ⟨db, cache⟩ := st
  have h' : db = [] := h
  subst h'
  simp [update_cache_with_top_videos, sortByFreqDesc, cacheTopLoop]

theorem C8_witness :
    (AppState.mk [] [("other", .num 1)]).db = [] ∧
    update_cache_with_top_videos (AppState.mk [] [("other", .num 1)])
      = (AppState.mk [] [("other", .num 1)], true) :=
  ⟨rfl, C8_empty_store_tick_no_op (AppState.mk [] [("other", .num 1)]) rfl⟩

/-- Claim C9: a falsy cached value (for example an empty chapter list) is
not a cache hit — `if cached_result:` fails — so the lookup behaves
exactly as if the entry were absent: it runs the Durable-Store branch,
increments the found record's frequency, and returns the stored content. -/
theorem C9_falsy_cache_behaves_as_miss (st : AppState) (vid : String)
    (cached : Json) (r : Video) (j : Json)
    (hvid : vid ≠ "")
    (hhit : cache_get st.cache vid = some cached)
    (hfalsy : pyTruthy cached = false)
    (hfind : db_find st.db vid = some r)
    (hparse : json_loads r.ai_content = some j) :
    check_video_id st (some vid) = check_db st vid ∧
    (check_video_id st (some vid)).1 = .ok j ∧
    db_find (check_video_id st (some vid)).2.db vid
      = some { r with frequency := r.frequency + 1 } := by
  have h0 : check_video_id st (some vid) = check_db st vid := by
    simp [check_video_id, if_neg hvid, hhit, hfalsy]
  have h1 : check_db st vid
      = (.ok j, { st with db := db_increment_first st.db vid }) := by
    simp [check_db, hfind, hparse]
  refine ⟨h0, ?_, ?_⟩ <;> rw [h0, h1]
  exact db_increment_first_find hfind

/-- One record whose id is cached with a falsy value (the empty list). -/
def exFalsyCached : AppState :=
  { db := [mkVideo 1 "v1" 10 "[1]"], cache := [("v1", .arr [])] }

theorem C9_witness :
    ("v1" : String) ≠ "" ∧
    cache_get exFalsyCached.cache "v1" = some (.arr []) ∧
    pyTruthy (.arr []) = false ∧
    db_find exFalsyCached.db "v1" = some (mkVideo 1 "v1" 10 "[1]") ∧
    json_loads (mkVideo 1 "v1" 10 "[1]").ai_content = some (.arr [.num 1]) ∧
    (check_video_id exFalsyCached (some "v1") = check_db exFalsyCached "v1" ∧
     (check_video_id exFalsyCached (some "v1")).1 = .ok (.arr [.num 1]) ∧
     db_find (check_video_id exFalsyCached (some "v1")).2.db "v1"
       = some { mkVideo 1 "v1" 10 "[1]" with frequency := 11 }) :=
  ⟨by decide, rfl, rfl, rfl, rfl,
    C9_falsy_cache_behaves_as_miss exFalsyCached "v1" (.arr [])
      (mkVideo 1 "v1" 10 "[1]") (.arr [.num 1]) (by decide) rfl rfl rfl rfl⟩

/-- Claim C10: neither request handler ever mutates the cache — the lookup
handler performs no backfill and the ingest handler performs no insert —
and the scheduler's refresh only adds or overwrites entries, never removes
one (in this model, which has no TTL clock, cache keys can only appear). -/
theorem C10_handlers_never_mutate_cache (st : AppState)
    (a gen video_id transcript : Option String) (now : Nat) :
    (check_video_id st a).2.cache = st.cache ∧
    (process_video st gen video_id transcript now).2.cache = st.cache ∧
    (∀ k j, cache_get st.cache k = some j →
      ∃ j', cache_get (update_cache_with_top_videos st).1.cache k = some j') := by
  refine ⟨check_video_id_cache st a,
    process_video_cache st gen video_id transcript now, ?_⟩
  intro k j h
  simp only [update_cache_with_top_videos]
  exact cacheTopLoop_keeps _ _ _ _ h

theorem C10_witness :
    cache_get exStaleState.cache "other" = some (.num 1) ∧
    ∃ j', cache_get (update_cache_with_top_videos exStaleState).1.cache "other"
      = some j' :=
  ⟨rfl, (C10_handlers_never_mutate_cache exStaleState none none none none 0).2.2
    "other" (.num 1) rfl⟩

end VidChapters
